import Mathlib

/-!
Verification development for the Klampt `Geometry3D` bindings
(`src/Python/klampt/src/geometry.h`).

The repository ships only the declaration header: the struct fields of
`TriangleMesh`, `PointCloud` and `GeometricPrimitive` and the method
surface of `Geometry3D`, together with their doc comments.  The method
bodies live outside the repository snapshot, so every operation below is a
shallow embedding reconstructed from the specification (`spec.md`): each
such definition carries a doc comment starting `Modelled from the spec:`.
The raw data model (struct fields) is taken directly from the header.

Coordinates, matrices and margins are rationals (the C++ doubles, read
exactly); the proximity engine's separation values live in `ℝ≥0∞` so that
an empty geometry has separation `⊤` and margin deflation is truncated
subtraction, matching the spec's "returns a non-negative value".
-/

/-- A 3D vector with rational coordinates, standing for the C++ `double[3]`. -/
structure Vec3 where
  x : ℚ
  y : ℚ
  z : ℚ
deriving DecidableEq, Repr

namespace Vec3

def add (u v : Vec3) : Vec3 := ⟨u.x + v.x, u.y + v.y, u.z + v.z⟩

def smul (s : ℚ) (v : Vec3) : Vec3 := ⟨s * v.x, s * v.y, s * v.z⟩

def dot (u v : Vec3) : ℚ := u.x * v.x + u.y * v.y + u.z * v.z

/-- Componentwise minimum. -/
def cmin (u v : Vec3) : Vec3 := ⟨min u.x v.x, min u.y v.y, min u.z v.z⟩

/-- Componentwise maximum. -/
def cmax (u v : Vec3) : Vec3 := ⟨max u.x v.x, max u.y v.y, max u.z v.z⟩

/-- Componentwise order on vectors. -/
def le (u v : Vec3) : Prop := u.x ≤ v.x ∧ u.y ≤ v.y ∧ u.z ≤ v.z

instance (u v : Vec3) : Decidable (le u v) := by unfold le; infer_instance

end Vec3

/-- A 3×3 matrix given by its rows, standing for the C++ `double[9]`
(row-major, as the header's `R[9]` arguments). -/
structure Mat3 where
  row1 : Vec3
  row2 : Vec3
  row3 : Vec3
deriving DecidableEq, Repr

namespace Mat3

def mulVec (M : Mat3) (v : Vec3) : Vec3 :=
  ⟨M.row1.dot v, M.row2.dot v, M.row3.dot v⟩

def ident : Mat3 := ⟨⟨1, 0, 0⟩, ⟨0, 1, 0⟩, ⟨0, 0, 1⟩⟩

/-- Each row has unit Euclidean norm.  The spec calls the `R` argument a
"rotation-like matrix"; this is the part of orthogonality the bounding-box
arguments need. -/
def rowsUnit (M : Mat3) : Prop :=
  M.row1.dot M.row1 = 1 ∧ M.row2.dot M.row2 = 1 ∧ M.row3.dot M.row3 = 1

instance (M : Mat3) : Decidable (rowsUnit M) := by unfold rowsUnit; infer_instance

end Mat3

/-- Modelled from the spec: TransformState, "a rigid transform (3×3
rotation-like matrix + 3-vector translation) per handle, default identity". -/
structure RigidTransform where
  R : Mat3
  t : Vec3
deriving DecidableEq, Repr

namespace RigidTransform

def apply (T : RigidTransform) (v : Vec3) : Vec3 := (T.R.mulVec v).add T.t

def ident : RigidTransform := ⟨Mat3.ident, ⟨0, 0, 0⟩⟩

end RigidTransform

/-- A 3D indexed triangle mesh: `vertices` is the flattened coordinate list
`[x1, y1, z1, x2, ...]`, `indices` the flattened triangle list of indices
into the vertex list (header: `struct TriangleMesh`). -/
structure TriangleMesh where
  indices : List ℤ
  vertices : List ℚ
deriving DecidableEq, Repr

/-- A 3D point cloud: `vertices` is the flattened coordinate list,
`properties` the flattened per-point property table (`k` properties per
point, row-major by point, named by `propertyNames`), `settings` a string
key→value store (header: `struct PointCloud`). -/
structure PointCloud where
  vertices : List ℚ
  propertyNames : List String
  properties : List ℚ
  settings : List (String × String)
deriving DecidableEq, Repr

namespace PointCloud

/-- Number of points (header: `numPoints`): the vertex list holds three
coordinates per point. -/
def numPoints (pc : PointCloud) : ℕ := pc.vertices.length / 3

/-- Number of properties (header: `numProperties`). -/
def numProperties (pc : PointCloud) : ℕ := pc.propertyNames.length

end PointCloud

/-- A geometric primitive as stored by the header: a `type` tag string plus
a flat numeric parameter list (header: `struct GeometricPrimitive`). -/
structure GeometricPrimitive where
  type : String
  properties : List ℚ
deriving DecidableEq, Repr

/-- Modelled from the spec: the parsed primitive kinds, "a `kind` tag
(Point/Sphere/Segment/AABB) plus a flat numeric parameter list whose length
and meaning depend on `kind`" (§3); the header constructs them through
`setPoint`, `setSphere`, `setSegment`, `setAABB`. -/
inductive Prim where
  | point (p : Vec3)
  | sphere (c : Vec3) (r : ℚ)
  | segment (a b : Vec3)
  | aabb (bmin bmax : Vec3)
deriving DecidableEq, Repr

/-- Parses the header's stringly-typed primitive into its kind, following
the header's four constructors. -/
def GeometricPrimitive.parse (g : GeometricPrimitive) : Option Prim :=
  match g.type, g.properties with
  | "Point", [x, y, z] => some (.point ⟨x, y, z⟩)
  | "Sphere", [x, y, z, r] => some (.sphere ⟨x, y, z⟩ r)
  | "Segment", [ax, ay, az, bx, by_, bz] => some (.segment ⟨ax, ay, az⟩ ⟨bx, by_, bz⟩)
  | "AABB", [ax, ay, az, bx, by_, bz] => some (.aabb ⟨ax, ay, az⟩ ⟨bx, by_, bz⟩)
  | _, _ => none

/-- Modelled from the spec: the error taxonomy of §7 (TypeMismatch,
IndexOutOfRange, KeyNotFound, InvalidArgument). -/
inductive GeomError where
  | typeMismatch
  | indexOutOfRange
  | keyNotFound
  | invalidArgument
deriving DecidableEq, Repr

/-- Modelled from the spec: the `Geometry3D` handle as "a reference to a
ShapeVariant, a TransformState, a collision margin" (§2).  The ShapeVariant
is the tagged union over Primitive / TriangleMesh / PointCloud / Group
(§3); `uninit` is the default-constructed handle with no contents.  Each
constructor carries the handle's current (virtual) transform and collision
margin. -/
inductive Geometry3D where
  | uninit (trans : RigidTransform) (margin : ℚ)
  | prim (g : Prim) (trans : RigidTransform) (margin : ℚ)
  | triMesh (m : TriangleMesh) (trans : RigidTransform) (margin : ℚ)
  | ptCloud (pc : PointCloud) (trans : RigidTransform) (margin : ℚ)
  | group (children : List Geometry3D) (trans : RigidTransform) (margin : ℚ)
deriving Repr

namespace Geometry3D

/-- The handle's current (virtual) transform. -/
def trans : Geometry3D → RigidTransform
  | .uninit T _ => T
  | .prim _ T _ => T
  | .triMesh _ T _ => T
  | .ptCloud _ T _ => T
  | .group _ T _ => T

/-- The handle's collision margin (header: `getCollisionMargin`, default 0). -/
def margin : Geometry3D → ℚ
  | .uninit _ m => m
  | .prim _ _ m => m
  | .triMesh _ _ m => m
  | .ptCloud _ _ m => m
  | .group _ _ m => m

/-- True iff the active tag is Group. -/
def isGroup : Geometry3D → Bool
  | .group _ _ _ => true
  | _ => false

/-- True iff the handle is default-constructed with no contents. -/
def isUninit : Geometry3D → Bool
  | .uninit _ _ => true
  | _ => false

/-- Modelled from the spec: `setCollisionMargin(m)` replaces the handle's
collision margin (§4.1); the engine clamps negative margins to zero at use
(the spec's clamp policy for its open question on negative margins). -/
def setCollisionMargin : Geometry3D → ℚ → Geometry3D
  | .uninit T _, m => .uninit T m
  | .prim g T _, m => .prim g T m
  | .triMesh t T _, m => .triMesh t T m
  | .ptCloud p T _, m => .ptCloud p T m
  | .group cs T _, m => .group cs T m

/-- Modelled from the spec: `setCurrentTransform(R, t)` replaces the
virtual transform, O(1), touching nothing else (§3, §4.1). -/
def setCurrentTransform : Geometry3D → RigidTransform → Geometry3D
  | .uninit _ m, T => .uninit T m
  | .prim g _ m, T => .prim g T m
  | .triMesh t _ m, T => .triMesh t T m
  | .ptCloud p _ m, T => .ptCloud p T m
  | .group cs _ m, T => .group cs T m

mutual

/-- Modelled from the spec: the ProximityQueryEngine "recurses through
Group members" and resolves concrete type pairs itself, so "Group is
handled by the dispatcher itself via recursion, never passed into a leaf
algorithm" (§4.2).  `leaves` is that recursion: the list of non-Group
handles a query over this handle dispatches on, each child evaluated as an
independently transformable handle (§3). -/
def leaves : Geometry3D → List Geometry3D
  | .uninit T m => [.uninit T m]
  | .prim g T m => [.prim g T m]
  | .triMesh t T m => [.triMesh t T m]
  | .ptCloud p T m => [.ptCloud p T m]
  | .group cs _ _ => leavesList cs

/-- Group recursion over a child list (spec §4.2). -/
def leavesList : List Geometry3D → List Geometry3D
  | [] => []
  | c :: cs => leaves c ++ leavesList cs

end

@[simp] theorem leaves_uninit (T : RigidTransform) (m : ℚ) :
    leaves (.uninit T m) = [.uninit T m] := by simp [leaves]

@[simp] theorem leaves_prim (g : Prim) (T : RigidTransform) (m : ℚ) :
    leaves (.prim g T m) = [.prim g T m] := by simp [leaves]

@[simp] theorem leaves_triMesh (t : TriangleMesh) (T : RigidTransform) (m : ℚ) :
    leaves (.triMesh t T m) = [.triMesh t T m] := by simp [leaves]

@[simp] theorem leaves_ptCloud (p : PointCloud) (T : RigidTransform) (m : ℚ) :
    leaves (.ptCloud p T m) = [.ptCloud p T m] := by simp [leaves]

@[simp] theorem leaves_group (cs : List Geometry3D) (T : RigidTransform) (m : ℚ) :
    leaves (.group cs T m) = leavesList cs := by simp [leaves]

@[simp] theorem leavesList_nil : leavesList [] = [] := by simp [leavesList]

@[simp] theorem leavesList_cons (c : Geometry3D) (cs : List Geometry3D) :
    leavesList (c :: cs) = leaves c ++ leavesList cs := by simp [leavesList]

/-- A non-Group handle is its own single dispatch leaf. -/
theorem leaves_of_not_isGroup (g : Geometry3D) (h : g.isGroup = false) :
    leaves g = [g] := by
  cases g <;> simp_all [isGroup]

end Geometry3D

/-! ## The proximity query engine

Modelled from the spec (§4.2): queries operate on the effective geometry,
"raw data transformed by each handle's current TransformState", and
`distance` is the "minimum Euclidean separation between transformed,
margin-inflated surfaces", a non-negative value that is `⊤` for empty
geometry.  Shapes denote subsets of Euclidean 3-space. -/

/-- Euclidean 3-space: the ambient space of the spec's "minimum Euclidean
separation". -/
abbrev V3 := EuclideanSpace ℝ (Fin 3)

/-- Embeds a rational vector into Euclidean 3-space. -/
noncomputable def Vec3.toE (v : Vec3) : V3 :=
  (WithLp.equiv 2 (Fin 3 → ℝ)).symm ![(v.x : ℝ), (v.y : ℝ), (v.z : ℝ)]

/-- Coordinate of a Euclidean point. -/
def ecoord (v : V3) (i : Fin 3) : ℝ := WithLp.equiv 2 (Fin 3 → ℝ) v i

/-- A rigid transform acting on Euclidean 3-space (used for the solid-box
primitive, whose transformed shape is not axis-aligned). -/
noncomputable def RigidTransform.applyE (T : RigidTransform) (v : V3) : V3 :=
  (WithLp.equiv 2 (Fin 3 → ℝ)).symm
    ![(T.R.row1.x : ℝ) * ecoord v 0 + (T.R.row1.y : ℝ) * ecoord v 1 +
        (T.R.row1.z : ℝ) * ecoord v 2 + (T.t.x : ℝ),
      (T.R.row2.x : ℝ) * ecoord v 0 + (T.R.row2.y : ℝ) * ecoord v 1 +
        (T.R.row2.z : ℝ) * ecoord v 2 + (T.t.y : ℝ),
      (T.R.row3.x : ℝ) * ecoord v 0 + (T.R.row3.y : ℝ) * ecoord v 1 +
        (T.R.row3.z : ℝ) * ecoord v 2 + (T.t.z : ℝ)]

/-- The axis-aligned solid box with the given rational corners. -/
def cornerBox (lo hi : Vec3) : Set V3 :=
  {v | ((lo.x : ℝ) ≤ ecoord v 0 ∧ ecoord v 0 ≤ (hi.x : ℝ)) ∧
       ((lo.y : ℝ) ≤ ecoord v 1 ∧ ecoord v 1 ≤ (hi.y : ℝ)) ∧
       ((lo.z : ℝ) ≤ ecoord v 2 ∧ ecoord v 2 ≤ (hi.z : ℝ))}

/-- Modelled from the spec: the point set of a transformed primitive
(Point / solid Sphere / Segment / solid AABB, §3). -/
def primSet : Prim → RigidTransform → Set V3
  | .point p, T => {Vec3.toE (T.apply p)}
  | .sphere c r, T => Metric.closedBall (Vec3.toE (T.apply c)) (r : ℝ)
  | .segment a b, T => segment ℝ (Vec3.toE (T.apply a)) (Vec3.toE (T.apply b))
  | .aabb lo hi, T => T.applyE '' cornerBox lo hi

/-- Groups three consecutive coordinates of a flat list into vectors
(the header's flattened `[x1, y1, z1, x2, ...]` layout); an incomplete
trailing group is dropped. -/
def chunk3 : List ℚ → List Vec3
  | a :: b :: c :: rest => ⟨a, b, c⟩ :: chunk3 rest
  | _ => []

/-- Groups three consecutive entries of the flat triangle index list. -/
def chunk3i : List ℤ → List (ℤ × ℤ × ℤ)
  | a :: b :: c :: rest => (a, b, c) :: chunk3i rest
  | _ => []

/-- Vertex lookup by (C `int`) index; out-of-range indices yield none. -/
def vertAt (vs : List Vec3) (i : ℤ) : Option Vec3 :=
  if h : 0 ≤ i ∧ i.toNat < vs.length then some (vs.get ⟨i.toNat, h.2⟩) else none

/-- The triangles of a mesh as vertex triples, resolving the flat index
list against the flat vertex list; triples with an invalid index are
dropped (the header's invariant is that every index is in range). -/
def TriangleMesh.triangleVerts (m : TriangleMesh) : List (Vec3 × Vec3 × Vec3) :=
  (chunk3i m.indices).foldr
    (fun t acc =>
      match vertAt (chunk3 m.vertices) t.1, vertAt (chunk3 m.vertices) t.2.1,
          vertAt (chunk3 m.vertices) t.2.2 with
      | some a, some b, some c => (a, b, c) :: acc
      | _, _, _ => acc)
    []

/-- Modelled from the spec: the surface of a transformed mesh, the union of
its (filled) triangles. -/
def meshSet (m : TriangleMesh) (T : RigidTransform) : Set V3 :=
  m.triangleVerts.foldr
    (fun t acc =>
      convexHull ℝ
          {Vec3.toE (T.apply t.1), Vec3.toE (T.apply t.2.1), Vec3.toE (T.apply t.2.2)} ∪
        acc)
    ∅

/-- Modelled from the spec: a transformed point cloud is its set of points
("treating the PointCloud as a set of degenerate point primitives", §4.2). -/
def cloudSet (pc : PointCloud) (T : RigidTransform) : Set V3 :=
  (chunk3 pc.vertices).foldr (fun p acc => {Vec3.toE (T.apply p)} ∪ acc) ∅

/-- The point set a non-Group handle denotes: its raw data under its own
current transform (spec §4.2).  Group handles are flattened by
`Geometry3D.leaves` before this is consulted, so the Group case is unused
and empty. -/
def Geometry3D.leafSet : Geometry3D → Set V3
  | .uninit _ _ => ∅
  | .prim g T _ => primSet g T
  | .triMesh m T _ => meshSet m T
  | .ptCloud pc T _ => cloudSet pc T
  | .group _ _ _ => ∅

open scoped ENNReal

/-- Modelled from the spec: the minimum Euclidean separation between two
point sets (`⊤` when either is empty). -/
noncomputable def esep (A B : Set V3) : ℝ≥0∞ := ⨅ a ∈ A, ⨅ b ∈ B, edist a b

/-- A handle's collision margin as a separation offset; negative margins
are clamped to zero at use (the spec's clamp policy for its open question
on negative margins). -/
noncomputable def marginE (g : Geometry3D) : ℝ≥0∞ := ENNReal.ofReal (g.margin : ℝ)

/-- Modelled from the spec: the separation between two margin-inflated
non-Group leaves — each handle's margin "conceptually inflates the geometry
by a uniform offset" (§3), so the inflated separation is the raw separation
less both margins, truncated at zero. -/
noncomputable def leafDist (a b : Geometry3D) : ℝ≥0∞ :=
  esep a.leafSet b.leafSet - (marginE a + marginE b)

/-- Modelled from the spec: the ProximityQueryEngine's dispatch list for a
pair of handles — Group recursion is performed by the dispatcher (§4.2),
producing one entry per pair of non-Group leaves: the pair's margin-deflated
separation together with the pair's margin sum. -/
noncomputable def proxPairs (a b : Geometry3D) : List (ℝ≥0∞ × ℝ≥0∞) :=
  (Geometry3D.leaves a).foldr
    (fun la acc =>
      ((Geometry3D.leaves b).map fun lb => (leafDist la lb, marginE la + marginE lb)) ++ acc)
    []

/-- Minimum of a list of extended nonnegative reals (`⊤` for the empty
list). -/
noncomputable def infList (l : List ℝ≥0∞) : ℝ≥0∞ := l.foldr min ⊤

/-- Modelled from the spec: `distance(self, other)` (§4.2) — the minimum
over dispatched leaf pairs of the margin-inflated separation; "Group vs
anything: minimum over children". -/
noncomputable def Geometry3D.distance (a b : Geometry3D) : ℝ≥0∞ :=
  infList ((proxPairs a b).map Prod.fst)

/-- Modelled from the spec: `collides(self, other)` (§4.2) — some
dispatched leaf pair has margin-inflated separation at most the pair's
margin sum ("true iff distance(self, other) ≤ margin(self) + margin(other)
under the type-pair's test"); "Group vs anything: true iff any child
collides". -/
def Geometry3D.collides (a b : Geometry3D) : Prop :=
  ∃ p ∈ proxPairs a b, p.1 ≤ p.2

/-- Modelled from the spec: `withinDistance(self, other, tol)` (§4.2) —
some dispatched leaf pair is within the query threshold
`tol + margin(self) + margin(other)` built from the two queried handles'
margins. -/
def Geometry3D.withinDistance (a b : Geometry3D) (tol : ℚ) : Prop :=
  ∃ p ∈ proxPairs a b, p.1 ≤ ENNReal.ofReal (tol : ℝ) + marginE a + marginE b

@[simp] theorem infList_nil : infList [] = ⊤ := rfl

@[simp] theorem infList_cons (x : ℝ≥0∞) (l : List ℝ≥0∞) :
    infList (x :: l) = min x (infList l) := rfl

theorem infList_append (l₁ l₂ : List ℝ≥0∞) :
    infList (l₁ ++ l₂) = min (infList l₁) (infList l₂) := by
  induction l₁ with
  | nil => simp
  | cons x l ih => simp [infList_cons, ih, min_assoc]

theorem infList_le_of_mem {x : ℝ≥0∞} {l : List ℝ≥0∞} (hx : x ∈ l) :
    infList l ≤ x := by
  induction l with
  | nil => cases hx
  | cons y l ih =>
    rcases List.mem_cons.1 hx with rfl | hx
    · exact min_le_left _ _
    · exact le_trans (min_le_right _ _) (ih hx)

theorem infList_le_iff {l : List ℝ≥0∞} {c : ℝ≥0∞} (hc : c ≠ ⊤) :
    infList l ≤ c ↔ ∃ x ∈ l, x ≤ c := by
  induction l with
  | nil =>
    simp only [infList_nil, top_le_iff, List.not_mem_nil]
    exact ⟨fun h => absurd h hc, by rintro ⟨x, h, -⟩; cases h⟩
  | cons y l ih =>
    simp only [infList_cons, min_le_iff, List.mem_cons, ih]
    constructor
    · rintro (h | ⟨x, hx, hxc⟩)
      · exact ⟨y, Or.inl rfl, h⟩
      · exact ⟨x, Or.inr hx, hxc⟩
    · rintro ⟨x, rfl | hx, hxc⟩
      · exact Or.inl hxc
      · exact Or.inr ⟨x, hx, hxc⟩

theorem infList_attained {l : List ℝ≥0∞} (hl : l ≠ []) : ∃ x ∈ l, infList l = x := by
  induction l with
  | nil => exact absurd rfl hl
  | cons y l ih =>
    cases l with
    | nil => exact ⟨y, List.mem_cons_self _ _, by simp⟩
    | cons z l =>
      rcases ih (by simp) with ⟨x, hx, hfold⟩
      rcases le_total y (infList (z :: l)) with h | h
      · exact ⟨y, List.mem_cons_self _ _, min_eq_left h⟩
      · exact ⟨x, List.mem_cons_of_mem _ hx, by rw [infList_cons, min_eq_right h, hfold]⟩

/-- The query threshold is always finite. -/
theorem threshold_ne_top (a b : Geometry3D) (tol : ℚ) :
    ENNReal.ofReal (tol : ℝ) + marginE a + marginE b ≠ ⊤ := by
  simp [marginE]

/-- Claim C1: for every pair of handles and every tolerance `tol`,
`withinDistance self other tol` holds iff
`distance self other ≤ tol + margin self + margin other`, where `distance`
is the minimum separation between the transformed, margin-inflated
surfaces. -/
theorem claim_C1_withinDistance_iff (a b : Geometry3D) (tol : ℚ) :
    a.withinDistance b tol ↔
      a.distance b ≤ ENNReal.ofReal (tol : ℝ) + marginE a + marginE b := by
  rw [Geometry3D.withinDistance, Geometry3D.distance,
    infList_le_iff (threshold_ne_top a b tol)]
  constructor
  · rintro ⟨p, hp, hle⟩
    exact ⟨p.1, List.mem_map_of_mem Prod.fst hp, hle⟩
  · rintro ⟨x, hx, hle⟩
    rcases List.mem_map.1 hx with ⟨p, hp, rfl⟩
    exact ⟨p, hp, hle⟩

/-! ## Group composition (C2) -/

theorem foldr_appendf_init {α β : Type} (f : α → List β) (l : List α) (init : List β) :
    l.foldr (fun a acc => f a ++ acc) init = l.foldr (fun a acc => f a ++ acc) [] ++ init := by
  induction l with
  | nil => simp
  | cons a l ih => simp [ih]

theorem proxPairs_group_left (cs : List Geometry3D) (T : RigidTransform) (m : ℚ)
    (b : Geometry3D) :
    proxPairs (.group cs T m) b = cs.foldr (fun c acc => proxPairs c b ++ acc) [] := by
  show (Geometry3D.leaves (.group cs T m)).foldr _ [] = _
  rw [Geometry3D.leaves_group]
  induction cs with
  | nil => simp [Geometry3D.leavesList_nil]
  | cons c cs ih =>
    rw [Geometry3D.leavesList_cons, List.foldr_append, foldr_appendf_init, List.foldr_cons, ← ih]
    rfl

theorem mem_proxPairs_group_left {p : ℝ≥0∞ × ℝ≥0∞} (cs : List Geometry3D)
    (T : RigidTransform) (m : ℚ) (b : Geometry3D) :
    p ∈ proxPairs (.group cs T m) b ↔ ∃ c ∈ cs, p ∈ proxPairs c b := by
  rw [proxPairs_group_left]
  induction cs with
  | nil => simp
  | cons c cs ih =>
    simp only [List.foldr_cons, List.mem_append, ih, List.mem_cons]
    constructor
    · rintro (h | ⟨c', hc', hp⟩)
      · exact ⟨c, Or.inl rfl, h⟩
      · exact ⟨c', Or.inr hc', hp⟩
    · rintro ⟨c', rfl | hc', hp⟩
      · exact Or.inl hp
      · exact Or.inr ⟨c', hc', hp⟩

theorem distance_group_left (cs : List Geometry3D) (T : RigidTransform) (m : ℚ)
    (b : Geometry3D) :
    Geometry3D.distance (.group cs T m) b = infList (cs.map fun c => c.distance b) := by
  rw [Geometry3D.distance, proxPairs_group_left]
  induction cs with
  | nil => simp
  | cons c cs ih =>
    rw [List.foldr_cons, List.map_append, infList_append, List.map_cons, infList_cons, ih]
    rfl

/-- Claim C2: for every Group handle and every handle `x`, `collides` on the
group holds iff it holds for at least one child, and `distance` on the group
is the minimum of the children's distances (the minimum of the empty family
being `⊤`); Group recursion is performed by the dispatcher (`leaves`), never
passed into a leaf algorithm (`leafDist`). -/
theorem claim_C2_group_composition (cs : List Geometry3D) (T : RigidTransform) (m : ℚ)
    (x : Geometry3D) :
    (Geometry3D.collides (.group cs T m) x ↔ ∃ c ∈ cs, c.collides x) ∧
      Geometry3D.distance (.group cs T m) x = infList (cs.map fun c => c.distance x) ∧
      ∀ c ∈ cs, Geometry3D.distance (.group cs T m) x ≤ c.distance x := by
  refine ⟨?_, distance_group_left cs T m x, ?_⟩
  · rw [Geometry3D.collides]
    constructor
    · rintro ⟨p, hp, hle⟩
      rcases (mem_proxPairs_group_left cs T m x).1 hp with ⟨c, hc, hpc⟩
      exact ⟨c, hc, p, hpc, hle⟩
    · rintro ⟨c, hc, p, hpc, hle⟩
      exact ⟨p, (mem_proxPairs_group_left cs T m x).2 ⟨c, hc, hpc⟩, hle⟩
  · intro c hc
    rw [distance_group_left cs T m x]
    exact infList_le_of_mem (List.mem_map_of_mem _ hc)

/-! ## Symmetry for non-Group pairs (C3) -/

theorem esep_le_edist {A B : Set V3} {a b : V3} (ha : a ∈ A) (hb : b ∈ B) :
    esep A B ≤ edist a b :=
  le_trans (iInf₂_le a ha) (iInf₂_le b hb)

theorem esep_comm (A B : Set V3) : esep A B = esep B A := by
  apply le_antisymm
  · refine le_iInf₂ fun b hb => le_iInf₂ fun a ha => ?_
    rw [edist_comm]
    exact esep_le_edist ha hb
  · refine le_iInf₂ fun a ha => le_iInf₂ fun b hb => ?_
    rw [edist_comm]
    exact esep_le_edist hb ha

theorem leafDist_comm (a b : Geometry3D) : leafDist a b = leafDist b a := by
  rw [leafDist, leafDist, esep_comm, add_comm]

theorem proxPairs_nonGroup {a b : Geometry3D} (ha : a.isGroup = false)
    (hb : b.isGroup = false) :
    proxPairs a b = [(leafDist a b, marginE a + marginE b)] := by
  rw [proxPairs, Geometry3D.leaves_of_not_isGroup a ha, Geometry3D.leaves_of_not_isGroup b hb]
  rfl

/-- Claim C3: for every pair of non-Group handles, `collides` is symmetric
and `distance` is symmetric (the model is exact, so the equality holds with
zero error, within any `absErr`). -/
theorem claim_C3_symmetry (a b : Geometry3D) (ha : a.isGroup = false)
    (hb : b.isGroup = false) :
    (a.collides b ↔ b.collides a) ∧ a.distance b = b.distance a := by
  have hab := proxPairs_nonGroup ha hb
  have hba := proxPairs_nonGroup hb ha
  constructor
  · rw [Geometry3D.collides, Geometry3D.collides, hab, hba]
    simp only [List.mem_singleton]
    constructor
    · rintro ⟨p, rfl, hle⟩
      exact ⟨_, rfl, by rwa [← leafDist_comm, add_comm (marginE b)]⟩
    · rintro ⟨p, rfl, hle⟩
      exact ⟨_, rfl, by rwa [leafDist_comm, add_comm (marginE a)]⟩
  · rw [Geometry3D.distance, Geometry3D.distance, hab, hba]
    simp only [List.map_cons, List.map_nil, infList_cons, infList_nil]
    rw [leafDist_comm]

/-- Witness for C3 at a concrete non-Group pair. -/
theorem claim_C3_symmetry_witness :
    (Geometry3D.collides (.prim (.point ⟨0, 0, 0⟩) RigidTransform.ident 0)
          (.prim (.sphere ⟨0, 0, 3⟩ 1) RigidTransform.ident (1/2)) ↔
        Geometry3D.collides (.prim (.sphere ⟨0, 0, 3⟩ 1) RigidTransform.ident (1/2))
          (.prim (.point ⟨0, 0, 0⟩) RigidTransform.ident 0)) ∧
      Geometry3D.distance (.prim (.point ⟨0, 0, 0⟩) RigidTransform.ident 0)
          (.prim (.sphere ⟨0, 0, 3⟩ 1) RigidTransform.ident (1/2)) =
        Geometry3D.distance (.prim (.sphere ⟨0, 0, 3⟩ 1) RigidTransform.ident (1/2))
          (.prim (.point ⟨0, 0, 0⟩) RigidTransform.ident 0) :=
  claim_C3_symmetry _ _ rfl rfl

/-! ## Margin monotonicity (C4) -/

/-- The second pair dominates the first: separation no larger, margin
budget no smaller. -/
def pairStronger (p q : ℝ≥0∞ × ℝ≥0∞) : Prop := q.1 ≤ p.1 ∧ p.2 ≤ q.2

theorem pairStronger_refl (p : ℝ≥0∞ × ℝ≥0∞) : pairStronger p p := ⟨le_refl _, le_refl _⟩

theorem forall2_pairStronger_refl (l : List (ℝ≥0∞ × ℝ≥0∞)) :
    List.Forall₂ pairStronger l l := by
  induction l with
  | nil => exact List.Forall₂.nil
  | cons p l ih => exact List.Forall₂.cons (pairStronger_refl p) ih

theorem forall2_append {α : Type} {R : α → α → Prop} {l₁ l₂ l₁' l₂' : List α}
    (h₁ : List.Forall₂ R l₁ l₁') (h₂ : List.Forall₂ R l₂ l₂') :
    List.Forall₂ R (l₁ ++ l₂) (l₁' ++ l₂') := by
  induction h₁ with
  | nil => exact h₂
  | cons h _ ih => exact List.Forall₂.cons h ih

theorem forall2_map_same {α : Type} (l : List α) (f g : α → ℝ≥0∞ × ℝ≥0∞)
    (h : ∀ x ∈ l, pairStronger (f x) (g x)) :
    List.Forall₂ pairStronger (l.map f) (l.map g) := by
  induction l with
  | nil => exact List.Forall₂.nil
  | cons x l ih =>
    exact List.Forall₂.cons (h x (List.mem_cons_self x l))
      (ih fun y hy => h y (List.mem_cons_of_mem x hy))

theorem setCollisionMargin_margin (g : Geometry3D) (m : ℚ) :
    (g.setCollisionMargin m).margin = m := by
  cases g <;> rfl

theorem setCollisionMargin_leafSet (g : Geometry3D) (m : ℚ) :
    (g.setCollisionMargin m).leafSet = g.leafSet := by
  cases g <;> rfl

theorem setCollisionMargin_isGroup (g : Geometry3D) (m : ℚ) :
    (g.setCollisionMargin m).isGroup = g.isGroup := by
  cases g <;> rfl

theorem marginE_mono {g : Geometry3D} {m : ℚ} (h : g.margin ≤ m) :
    marginE g ≤ marginE (g.setCollisionMargin m) := by
  rw [marginE, marginE, setCollisionMargin_margin]
  exact ENNReal.ofReal_le_ofReal (by exact_mod_cast h)

/-- Deflating by a larger margin sum gives a smaller leaf separation. -/
theorem leafDist_mono_left {a b : Geometry3D} {m : ℚ} (h : a.margin ≤ m) :
    leafDist (a.setCollisionMargin m) b ≤ leafDist a b := by
  rw [leafDist, leafDist, setCollisionMargin_leafSet]
  exact tsub_le_tsub_left (add_le_add_right (marginE_mono h) _) _

theorem leafDist_mono_right {a b : Geometry3D} {m : ℚ} (h : b.margin ≤ m) :
    leafDist a (b.setCollisionMargin m) ≤ leafDist a b := by
  rw [leafDist, leafDist, setCollisionMargin_leafSet]
  exact tsub_le_tsub_left (add_le_add_left (marginE_mono h) _) _

theorem proxPairs_margin_left (a b : Geometry3D) (m : ℚ) (h : a.margin ≤ m) :
    List.Forall₂ pairStronger (proxPairs a b) (proxPairs (a.setCollisionMargin m) b) := by
  by_cases hg : a.isGroup = true
  · cases a with
    | group cs T ma =>
      show List.Forall₂ pairStronger (proxPairs (.group cs T ma) b)
        (proxPairs (.group cs T m) b)
      rw [proxPairs_group_left, proxPairs_group_left]
      exact forall2_pairStronger_refl _
    | uninit T ma => simp [Geometry3D.isGroup] at hg
    | prim p T ma => simp [Geometry3D.isGroup] at hg
    | triMesh t T ma => simp [Geometry3D.isGroup] at hg
    | ptCloud p T ma => simp [Geometry3D.isGroup] at hg
  · have hg' : a.isGroup = false := by
      cases hik : a.isGroup
      · rfl
      · exact absurd hik hg
    have hg'' : (a.setCollisionMargin m).isGroup = false := by
      rw [setCollisionMargin_isGroup]; exact hg'
    rw [proxPairs, proxPairs, Geometry3D.leaves_of_not_isGroup a hg',
      Geometry3D.leaves_of_not_isGroup _ hg'']
    simp only [List.foldr_cons, List.foldr_nil, List.append_nil]
    refine forall2_map_same _ _ _ fun lb _ => ⟨leafDist_mono_left h, ?_⟩
    exact add_le_add_right (marginE_mono h) _

theorem proxPairs_margin_right (a b : Geometry3D) (m : ℚ) (h : b.margin ≤ m) :
    List.Forall₂ pairStronger (proxPairs a b) (proxPairs a (b.setCollisionMargin m)) := by
  have hmap : ∀ la : Geometry3D,
      List.Forall₂ pairStronger
        ((Geometry3D.leaves b).map fun lb => (leafDist la lb, marginE la + marginE lb))
        ((Geometry3D.leaves (b.setCollisionMargin m)).map fun lb =>
          (leafDist la lb, marginE la + marginE lb)) := by
    intro la
    by_cases hg : b.isGroup = true
    · cases b with
      | group cs T mb =>
        show List.Forall₂ pairStronger ((Geometry3D.leaves (.group cs T mb)).map _)
          ((Geometry3D.leaves (.group cs T m)).map _)
        rw [Geometry3D.leaves_group, Geometry3D.leaves_group]
        exact forall2_pairStronger_refl _
      | uninit T mb => simp [Geometry3D.isGroup] at hg
      | prim p T mb => simp [Geometry3D.isGroup] at hg
      | triMesh t T mb => simp [Geometry3D.isGroup] at hg
      | ptCloud p T mb => simp [Geometry3D.isGroup] at hg
    · have hg' : b.isGroup = false := by
        cases hik : b.isGroup
        · rfl
        · exact absurd hik hg
      have hg'' : (b.setCollisionMargin m).isGroup = false := by
        rw [setCollisionMargin_isGroup]; exact hg'
      rw [Geometry3D.leaves_of_not_isGroup b hg', Geometry3D.leaves_of_not_isGroup _ hg'']
      refine List.Forall₂.cons ⟨leafDist_mono_right h, ?_⟩ List.Forall₂.nil
      exact add_le_add_left (marginE_mono h) _
  rw [proxPairs, proxPairs]
  induction Geometry3D.leaves a with
  | nil => exact List.Forall₂.nil
  | cons la rest ih => exact forall2_append (hmap la) ih

theorem infList_map_fst_mono {l l' : List (ℝ≥0∞ × ℝ≥0∞)}
    (h : List.Forall₂ pairStronger l l') :
    infList (l'.map Prod.fst) ≤ infList (l.map Prod.fst) := by
  induction h with
  | nil => exact le_refl _
  | cons hpq _ ih =>
    simp only [List.map_cons, infList_cons]
    exact min_le_min hpq.1 ih

theorem exists_le_mono_forall2 {l l' : List (ℝ≥0∞ × ℝ≥0∞)}
    (h : List.Forall₂ pairStronger l l') (hex : ∃ p ∈ l, p.1 ≤ p.2) :
    ∃ q ∈ l', q.1 ≤ q.2 := by
  induction h with
  | nil => exact hex
  | cons hpq hrest ih =>
    rcases hex with ⟨p, hp, hle⟩
    rcases List.mem_cons.1 hp with rfl | hp'
    · exact ⟨_, List.mem_cons_self _ _, le_trans hpq.1 (le_trans hle hpq.2)⟩
    · rcases ih ⟨p, hp', hle⟩ with ⟨q, hq, hqle⟩
      exact ⟨q, List.mem_cons_of_mem _ hq, hqle⟩

/-- Claim C4: increasing either handle's collision margin (through
`setCollisionMargin`) never turns `collides` from true to false and never
increases the reported `distance`. -/
theorem claim_C4_margin_monotone (a b : Geometry3D) (m : ℚ) :
    (a.margin ≤ m →
      Geometry3D.distance (a.setCollisionMargin m) b ≤ a.distance b ∧
        (a.collides b → (a.setCollisionMargin m).collides b)) ∧
      (b.margin ≤ m →
        Geometry3D.distance a (b.setCollisionMargin m) ≤ a.distance b ∧
          (a.collides b → a.collides (b.setCollisionMargin m))) := by
  constructor
  · intro h
    have hf := proxPairs_margin_left a b m h
    exact ⟨infList_map_fst_mono hf, fun hc => exists_le_mono_forall2 hf hc⟩
  · intro h
    have hf := proxPairs_margin_right a b m h
    exact ⟨infList_map_fst_mono hf, fun hc => exists_le_mono_forall2 hf hc⟩

/-- Witness for C4 at a concrete pair and margin increase. -/
theorem claim_C4_margin_monotone_witness :
    Geometry3D.distance
        ((Geometry3D.prim (.point ⟨0, 0, 0⟩) RigidTransform.ident 0).setCollisionMargin 2)
        (.prim (.sphere ⟨0, 0, 3⟩ 1) RigidTransform.ident 1) ≤
      Geometry3D.distance (.prim (.point ⟨0, 0, 0⟩) RigidTransform.ident 0)
        (.prim (.sphere ⟨0, 0, 3⟩ 1) RigidTransform.ident 1) :=
  ((claim_C4_margin_monotone (.prim (.point ⟨0, 0, 0⟩) RigidTransform.ident 0)
      (.prim (.sphere ⟨0, 0, 3⟩ 1) RigidTransform.ident 1) 2).1
    (by norm_num [Geometry3D.margin])).1

/-! ## AccelerationIndex lifecycle (C5) -/

/-- Modelled from the spec: the cache bookkeeping of one handle (§4.3) —
raw coordinates, the virtual TransformState, and the lazily built caches.
`version` counts permanent mutations of the raw data; `accel` and
`bbCache` record the data version each cache was built against (`none` =
Absent; a recorded version behind `version` is Stale). -/
structure CacheGeom where
  data : List Vec3
  cur : RigidTransform
  version : ℕ
  accel : Option ℕ
  bbCache : Option ℕ
deriving DecidableEq, Repr

namespace CacheGeom

/-- Modelled from the spec: `setCurrentTransform` is virtual — it replaces
the transform and "does not touch raw data or caches" (§3). -/
def setCurrentTransform (g : CacheGeom) (T : RigidTransform) : CacheGeom :=
  { g with cur := T }

/-- Modelled from the spec: a permanent mutation "bakes the transform into
the raw coordinates, resets TransformState to identity, and invalidates
AccelerationIndex and cached bounding box" (§3) — the data version
advances, leaving both caches behind it. -/
def bake (g : CacheGeom) (f : Vec3 → Vec3) : CacheGeom :=
  ⟨g.data.map f, RigidTransform.ident, g.version + 1, g.accel, g.bbCache⟩

/-- Permanent translation (header: `translate`). -/
def translate (g : CacheGeom) (t : Vec3) : CacheGeom := g.bake fun v => v.add t

/-- Permanent uniform scaling (header: `scale`). -/
def scale (g : CacheGeom) (s : ℚ) : CacheGeom := g.bake (Vec3.smul s)

/-- Permanent rotation (header: `rotate`). -/
def rotate (g : CacheGeom) (R : Mat3) : CacheGeom := g.bake R.mulVec

/-- Permanent rigid transform (header: `transform`). -/
def transformBy (g : CacheGeom) (R : Mat3) (t : Vec3) : CacheGeom :=
  g.bake fun v => (R.mulVec v).add t

/-- The acceleration index exists and was built against the current raw
data. -/
def accelFresh (g : CacheGeom) : Prop := g.accel = some g.version

/-- Modelled from the spec: lazy build — "transition to Built occurs on
first query ... after being Absent or Stale" (§4.3); every query consults
the index through this guard. -/
def ensureAccel (g : CacheGeom) : CacheGeom :=
  if g.accel = some g.version then g else { g with accel := some g.version }

/-- Recorded cache versions never run ahead of the data version. -/
def versionsWF (g : CacheGeom) : Prop :=
  (∀ v, g.accel = some v → v ≤ g.version) ∧ ∀ v, g.bbCache = some v → v ≤ g.version

/-- Modelled from the spec: a query or mutation step against one handle;
`query` stands for any proximity query, which reads the index through
`ensureAccel`. -/
inductive CacheOp where
  | setCurrentTransform (T : RigidTransform)
  | translate (t : Vec3)
  | scale (s : ℚ)
  | rotate (R : Mat3)
  | transformBy (R : Mat3) (t : Vec3)
  | query

/-- One step of the lifecycle. -/
def runOp (g : CacheGeom) : CacheOp → CacheGeom
  | .setCurrentTransform T => g.setCurrentTransform T
  | .translate t => g.translate t
  | .scale s => g.scale s
  | .rotate R => g.rotate R
  | .transformBy R t => g.transformBy R t
  | .query => g.ensureAccel

/-- A sequence of lifecycle steps. -/
def runOps (g : CacheGeom) (ops : List CacheOp) : CacheGeom := ops.foldl runOp g

end CacheGeom

/-- Claim C5: permanent mutations (`translate`, `scale`, `rotate`,
`transform`) bake the map into the raw coordinates, reset the virtual
transform to identity and leave both caches strictly behind the new data
version (stale); `setCurrentTransform` replaces only the virtual transform
and never touches data, version or caches; and along any operation
sequence a query — which reads the index through `ensureAccel` — always
reads an index built against the current data version, never one older
than the latest permanent mutation. -/
theorem claim_C5_cache_lifecycle (g : CacheGeom) (T : RigidTransform) (t : Vec3)
    (s : ℚ) (R : Mat3) (f : Vec3 → Vec3) (ops : List CacheGeom.CacheOp) :
    (g.setCurrentTransform T =
        ⟨g.data, T, g.version, g.accel, g.bbCache⟩) ∧
      (g.translate t = g.bake fun v => v.add t) ∧
      (g.scale s = g.bake (Vec3.smul s)) ∧
      (g.rotate R = g.bake R.mulVec) ∧
      (g.transformBy R t = g.bake fun v => (R.mulVec v).add t) ∧
      ((g.bake f).data = g.data.map f ∧ (g.bake f).cur = RigidTransform.ident ∧
        (g.bake f).version = g.version + 1) ∧
      (g.versionsWF →
        (∀ v, (g.bake f).accel = some v → v < (g.bake f).version) ∧
          ∀ v, (g.bake f).bbCache = some v → v < (g.bake f).version) ∧
      ((CacheGeom.runOps g ops).ensureAccel.accel =
          some (CacheGeom.runOps g ops).version ∧
        (CacheGeom.runOps g ops).ensureAccel.version =
          (CacheGeom.runOps g ops).version ∧
        (CacheGeom.runOps g ops).ensureAccel.data = (CacheGeom.runOps g ops).data) := by
  refine ⟨rfl, rfl, rfl, rfl, rfl, ⟨rfl, rfl, rfl⟩, ?_, ?_⟩
  · intro hwf
    constructor
    · intro v hv
      exact Nat.lt_succ_of_le (hwf.1 v hv)
    · intro v hv
      exact Nat.lt_succ_of_le (hwf.2 v hv)
  · rw [CacheGeom.ensureAccel]
    by_cases h : (CacheGeom.runOps g ops).accel = some (CacheGeom.runOps g ops).version
    · rw [if_pos h]
      exact ⟨h, rfl, rfl⟩
    · rw [if_neg h]
      exact ⟨rfl, rfl, rfl⟩

/-- Witness for C5 at a concrete handle, mutation arguments and operation
sequence. -/
theorem claim_C5_cache_lifecycle_witness :
    (CacheGeom.runOps ⟨[⟨0, 0, 0⟩], RigidTransform.ident, 0, some 0, none⟩
          [.translate ⟨1, 0, 0⟩, .query]).ensureAccel.accel =
      some (CacheGeom.runOps ⟨[⟨0, 0, 0⟩], RigidTransform.ident, 0, some 0, none⟩
          [.translate ⟨1, 0, 0⟩, .query]).version :=
  (claim_C5_cache_lifecycle ⟨[⟨0, 0, 0⟩], RigidTransform.ident, 0, some 0, none⟩
      RigidTransform.ident ⟨1, 0, 0⟩ 1 Mat3.ident id
      [.translate ⟨1, 0, 0⟩, .query]).2.2.2.2.2.2.2.1

/-! ## Group element access (C6) -/

/-- Modelled from the spec: `numElements()` — child count for Group, fails
with TypeMismatch otherwise (§4.1). -/
def Geometry3D.numElements : Geometry3D → Except GeomError ℕ
  | .group cs _ _ => .ok cs.length
  | _ => .error .typeMismatch

/-- Modelled from the spec: `getElement(i)` — valid only when the tag is
Group; an out-of-range index (the index is a C `int`) fails with
IndexOutOfRange; any other tag fails with TypeMismatch (§4.1). -/
def Geometry3D.getElement : Geometry3D → ℤ → Except GeomError Geometry3D
  | .group cs _ _, i =>
    if h : 0 ≤ i ∧ i.toNat < cs.length then .ok (cs.get ⟨i.toNat, h.2⟩)
    else .error .indexOutOfRange
  | _, _ => .error .typeMismatch

/-- Modelled from the spec: `setElement(i, data)` — valid only when the tag
is Group; an in-range index replaces that child, `i = numElements()`
appends, anything else fails with IndexOutOfRange; any other tag fails with
TypeMismatch (§4.1). -/
def Geometry3D.setElement : Geometry3D → ℤ → Geometry3D → Except GeomError Geometry3D
  | .group cs T m, i, d =>
    if 0 ≤ i ∧ i.toNat < cs.length then .ok (.group (cs.set i.toNat d) T m)
    else if i = cs.length then .ok (.group (cs ++ [d]) T m)
    else .error .indexOutOfRange
  | _, _, _ => .error .typeMismatch

/-- Claim C6: on a non-Group handle, `getElement`, `setElement` and
`numElements` all fail with TypeMismatch; on a Group, `getElement` with an
out-of-range index fails with IndexOutOfRange, and `setElement` at index
`numElements()` appends the new child. -/
theorem claim_C6_element_access (g : Geometry3D) (i : ℤ) (d : Geometry3D)
    (cs : List Geometry3D) (T : RigidTransform) (m : ℚ) :
    (g.isGroup = false →
      g.getElement i = .error .typeMismatch ∧
        g.setElement i d = .error .typeMismatch ∧
        g.numElements = .error .typeMismatch) ∧
      ((i < 0 ∨ (cs.length : ℤ) ≤ i) →
        Geometry3D.getElement (.group cs T m) i = .error .indexOutOfRange) ∧
      Geometry3D.setElement (.group cs T m) (cs.length : ℤ) d =
        .ok (.group (cs ++ [d]) T m) := by
  refine ⟨?_, ?_, ?_⟩
  · intro h
    cases g <;>
      simp_all [Geometry3D.isGroup, Geometry3D.getElement, Geometry3D.setElement,
        Geometry3D.numElements]
  · intro h
    rw [Geometry3D.getElement]
    rw [dif_neg]
    omega
  · rw [Geometry3D.setElement]
    rw [if_neg (by omega), if_pos (by omega)]

/-- Witness for C6 at a concrete non-Group handle and a concrete Group. -/
theorem claim_C6_element_access_witness :
    Geometry3D.getElement (.prim (.point ⟨0, 0, 0⟩) RigidTransform.ident 0) 0 =
        .error .typeMismatch ∧
      Geometry3D.getElement
          (.group [.prim (.point ⟨1, 1, 1⟩) RigidTransform.ident 0] RigidTransform.ident 0) 5 =
        .error .indexOutOfRange :=
  ⟨((claim_C6_element_access (.prim (.point ⟨0, 0, 0⟩) RigidTransform.ident 0) 0
        (.uninit RigidTransform.ident 0) [] RigidTransform.ident 0).1 rfl).1,
    (claim_C6_element_access (.uninit RigidTransform.ident 0) 5
        (.uninit RigidTransform.ident 0)
        [.prim (.point ⟨1, 1, 1⟩) RigidTransform.ident 0] RigidTransform.ident 0).2.1
      (by norm_num)⟩

/-! ## Type tag (C9) -/

/-- Modelled from the spec: `type()` returns the tag name of the active
ShapeVariant and fails with TypeMismatch on an uninitialized handle
(§4.1). -/
def Geometry3D.type : Geometry3D → Except GeomError String
  | .uninit _ _ => .error .typeMismatch
  | .prim _ _ _ => .ok "Primitive"
  | .triMesh _ _ _ => .ok "TriangleMesh"
  | .ptCloud _ _ _ => .ok "PointCloud"
  | .group _ _ _ => .ok "Group"

/-- Claim C9: `type()` returns the tag name of the active ShapeVariant —
"Primitive", "TriangleMesh", "PointCloud" or "Group" according to the
active tag — and fails with TypeMismatch exactly on an uninitialized
handle. -/
theorem claim_C9_type_tag (g : Geometry3D) :
    (g.type = .error .typeMismatch ↔ g.isUninit = true) ∧
      (∀ p T m, g = .prim p T m → g.type = .ok "Primitive") ∧
      (∀ t T m, g = .triMesh t T m → g.type = .ok "TriangleMesh") ∧
      (∀ p T m, g = .ptCloud p T m → g.type = .ok "PointCloud") ∧
      (∀ cs T m, g = .group cs T m → g.type = .ok "Group") ∧
      (g.isUninit = false →
        ∃ s, g.type = .ok s ∧
          (s = "Primitive" ∨ s = "TriangleMesh" ∨ s = "PointCloud" ∨ s = "Group")) := by
  cases g <;> simp [Geometry3D.type, Geometry3D.isUninit]

/-- Witness for C9 at a concrete initialized and a concrete uninitialized
handle. -/
theorem claim_C9_type_tag_witness :
    Geometry3D.type (.ptCloud ⟨[], [], [], []⟩ RigidTransform.ident 0) = .ok "PointCloud" ∧
      Geometry3D.type (.uninit RigidTransform.ident 0) = .error .typeMismatch :=
  ⟨(claim_C9_type_tag (.ptCloud ⟨[], [], [], []⟩ RigidTransform.ident 0)).2.2.2.1
      ⟨[], [], [], []⟩ RigidTransform.ident 0 rfl,
    (claim_C9_type_tag (.uninit RigidTransform.ident 0)).1.2 rfl⟩

/-! ## PointCloud.join (C10) -/

/-- Modelled from the header's doc comment: `join` "adds the given point
cloud to this one.  They must share the same properties or else an
exception is raised" — the argument's points and property rows are appended
to this cloud's flat lists. -/
def PointCloud.join (p q : PointCloud) : Except GeomError PointCloud :=
  if p.propertyNames = q.propertyNames then
    .ok ⟨p.vertices ++ q.vertices, p.propertyNames, p.properties ++ q.properties, p.settings⟩
  else .error .invalidArgument

/-- A well-formed point cloud: whole points only, and the flat property
table has exactly `numProperties · numPoints` entries (spec §3). -/
def PointCloud.WF (p : PointCloud) : Prop :=
  p.vertices.length % 3 = 0 ∧ p.properties.length = p.numProperties * p.numPoints

/-- Claim C10: `join` raises an exception iff the two clouds do not share
the same properties; when the properties match, the argument's points are
appended and the flat-property-length invariant
`len(properties) = numProperties · numPoints` is preserved. -/
theorem claim_C10_join (p q : PointCloud) :
    ((∃ e, p.join q = .error e) ↔ p.propertyNames ≠ q.propertyNames) ∧
      (p.propertyNames = q.propertyNames →
        p.join q =
          .ok ⟨p.vertices ++ q.vertices, p.propertyNames,
            p.properties ++ q.properties, p.settings⟩) ∧
      (p.WF → q.WF → p.propertyNames = q.propertyNames →
        ∀ r, p.join q = .ok r →
          r.WF ∧ r.numPoints = p.numPoints + q.numPoints) := by
  refine ⟨?_, ?_, ?_⟩
  · rw [PointCloud.join]
    by_cases h : p.propertyNames = q.propertyNames
    · simp [h]
    · simp [h]
  · intro h
    rw [PointCloud.join, if_pos h]
  · intro hp hq hnames r hr
    rw [PointCloud.join, if_pos hnames] at hr
    cases hr
    have hk : q.numProperties = p.numProperties := by
      rw [PointCloud.numProperties, PointCloud.numProperties, hnames]
    have hnp : (⟨p.vertices ++ q.vertices, p.propertyNames,
        p.properties ++ q.properties, p.settings⟩ : PointCloud).numPoints =
        p.numPoints + q.numPoints := by
      rcases hp with ⟨hp3, -⟩
      rcases hq with ⟨hq3, -⟩
      rw [PointCloud.numPoints, PointCloud.numPoints, PointCloud.numPoints]
      simp only [List.length_append]
      omega
    refine ⟨⟨?_, ?_⟩, hnp⟩
    · rcases hp with ⟨hp3, -⟩
      rcases hq with ⟨hq3, -⟩
      simp only [List.length_append]
      omega
    · rcases hp with ⟨-, hpl⟩
      rcases hq with ⟨-, hql⟩
      rw [hnp]
      simp only [List.length_append, PointCloud.numProperties] at hpl hql ⊢
      rw [hpl, hql, hnames]
      ring
  
/-- Witness for C10 at two concrete compatible point clouds. -/
theorem claim_C10_join_witness :
    (⟨[0, 0, 0], ["rgb"], [1], []⟩ : PointCloud).join ⟨[1, 2, 3], ["rgb"], [2], []⟩ =
        .ok ⟨[0, 0, 0, 1, 2, 3], ["rgb"], [1, 2], []⟩ ∧
      ∀ r, (⟨[0, 0, 0], ["rgb"], [1], []⟩ : PointCloud).join ⟨[1, 2, 3], ["rgb"], [2], []⟩ =
          .ok r → r.WF ∧ r.numPoints = 2 :=
  ⟨(claim_C10_join ⟨[0, 0, 0], ["rgb"], [1], []⟩ ⟨[1, 2, 3], ["rgb"], [2], []⟩).2.1 rfl,
    fun r hr =>
      (claim_C10_join ⟨[0, 0, 0], ["rgb"], [1], []⟩ ⟨[1, 2, 3], ["rgb"], [2], []⟩).2.2
        ⟨by decide, by decide⟩ ⟨by decide, by decide⟩ rfl r hr⟩

/-! ## Alias vs copy (C7) -/

/-- Modelled from the spec: the record a storage slot holds for one shape —
raw coordinates, the attached TransformState and the collision margin
(§2). -/
structure GeomRec where
  data : List Vec3
  cur : RigidTransform
  margin : ℚ
deriving DecidableEq, Repr

/-- Modelled from the spec: the OwnershipModel's backing storage — owning
slots and registry entries, addressed by handles (§3, §9: "an owning slot
(arena or smart-pointer-equivalent) or a lookup handle into the external
registry"). -/
structure GeomStore where
  slots : List GeomRec
deriving DecidableEq, Repr

/-- Modelled from the spec: a handle as an ownership-tagged reference into
the store (§3 OwnershipModel). -/
structure GeomHandle where
  ptr : ℕ
  standalone : Bool
deriving DecidableEq, Repr

namespace GeomStore

/-- What a handle observes: the record in its slot. -/
def read (st : GeomStore) (h : GeomHandle) : GeomRec :=
  st.slots.getD h.ptr ⟨[], RigidTransform.ident, 0⟩

/-- Modelled from the spec: `set(rhs)` "deep-copies rhs's data into this
handle's own storage, leaving rhs untouched and preserving this handle's
ownership kind" (§3): only the destination slot is overwritten, and the
destination handle itself (pointer and ownership kind) is returned
unchanged. -/
def setCopy (st : GeomStore) (b a : GeomHandle) : GeomStore × GeomHandle :=
  (⟨st.slots.set b.ptr (st.read a)⟩, b)

/-- A permanent mutation through a handle: bakes a translation into the
slot's raw coordinates and resets the slot's transform (§3). -/
def translateAt (st : GeomStore) (h : GeomHandle) (t : Vec3) : GeomStore :=
  ⟨st.slots.set h.ptr
    ⟨(st.read h).data.map fun v => v.add t, RigidTransform.ident, (st.read h).margin⟩⟩

end GeomStore

/-- Modelled from the spec: assignment (`operator=`) aliases — after
`b = a` the name `b` denotes a's reference, so "both handles observe the
same underlying shape and transform state" (§3); no slot is touched. -/
def GeomHandle.assign (_b a : GeomHandle) : GeomHandle := a

theorem getD_set_self (l : List GeomRec) (n : ℕ) (x d : GeomRec) (h : n < l.length) :
    (l.set n x).getD n d = x := by
  induction l generalizing n with
  | nil => simp at h
  | cons y l ih =>
    cases n with
    | zero => rfl
    | succ n => exact ih n (by simpa using h)

theorem getD_set_ne (l : List GeomRec) (n m : ℕ) (x d : GeomRec) (h : n ≠ m) :
    (l.set n x).getD m d = l.getD m d := by
  induction l generalizing n m with
  | nil => rfl
  | cons y l ih =>
    cases n with
    | zero =>
      cases m with
      | zero => exact absurd rfl h
      | succ m => rfl
    | succ n =>
      cases m with
      | zero => rfl
      | succ m => exact ih n m (fun he => h (by rw [he]))

/-- Claim C7: after the assignment `b = a`, a permanent mutation of `a` is
observed through `b` (both alias the same slot); after `b.set(a)`, a
subsequent permanent mutation of `a` is not observed through `b` (`b` keeps
the pre-mutation copy), `b`'s pointer and ownership kind are unchanged, and
`a`'s slot is left untouched by the copy. -/
theorem claim_C7_alias_vs_copy (st : GeomStore) (a b : GeomHandle) (t : Vec3)
    (ha : a.ptr < st.slots.length) (hb : b.ptr < st.slots.length)
    (hab : b.ptr ≠ a.ptr) :
    ((st.translateAt a t).read (b.assign a) =
        ⟨(st.read a).data.map fun v => v.add t, RigidTransform.ident, (st.read a).margin⟩) ∧
      ((st.setCopy b a).1.translateAt a t).read b = st.read a ∧
      (st.setCopy b a).1.read a = st.read a ∧
      (st.setCopy b a).2 = b := by
  refine ⟨?_, ?_, ?_, rfl⟩
  · rw [GeomHandle.assign, GeomStore.translateAt, GeomStore.read]
    exact getD_set_self _ _ _ _ ha
  · rw [GeomStore.setCopy, GeomStore.translateAt, GeomStore.read]
    show (((st.slots.set b.ptr (st.read a)).set a.ptr _).getD b.ptr _) = _
    rw [getD_set_ne _ _ _ _ _ (fun he => hab he.symm),
      getD_set_self _ _ _ _ (by simpa using hb)]
  · rw [GeomStore.setCopy, GeomStore.read, GeomStore.read]
    exact getD_set_ne _ _ _ _ _ hab

/-- Witness for C7 at a concrete two-slot store. -/
theorem claim_C7_alias_vs_copy_witness :
    ((GeomStore.translateAt ⟨[⟨[⟨0, 0, 0⟩], RigidTransform.ident, 0⟩,
            ⟨[⟨5, 5, 5⟩], RigidTransform.ident, 0⟩]⟩ ⟨0, true⟩ ⟨1, 0, 0⟩).read
        (GeomHandle.assign ⟨1, false⟩ ⟨0, true⟩) =
        ⟨[⟨1, 0, 0⟩], RigidTransform.ident, 0⟩) ∧
      ((GeomStore.setCopy ⟨[⟨[⟨0, 0, 0⟩], RigidTransform.ident, 0⟩,
            ⟨[⟨5, 5, 5⟩], RigidTransform.ident, 0⟩]⟩ ⟨1, false⟩ ⟨0, true⟩).1.translateAt
          ⟨0, true⟩ ⟨1, 0, 0⟩).read ⟨1, false⟩ =
        ⟨[⟨0, 0, 0⟩], RigidTransform.ident, 0⟩ := by
  have h := claim_C7_alias_vs_copy
    ⟨[⟨[⟨0, 0, 0⟩], RigidTransform.ident, 0⟩, ⟨[⟨5, 5, 5⟩], RigidTransform.ident, 0⟩]⟩
    ⟨0, true⟩ ⟨1, false⟩ ⟨1, 0, 0⟩ (by norm_num) (by norm_num) (by norm_num)
  refine ⟨?_, ?_⟩
  · rw [h.1]
    simp [GeomStore.read, Vec3.add]
  · rw [h.2.1]
    simp [GeomStore.read]

/-! ## Bounding boxes (C8) -/

/-- An axis-aligned box given by its corner extrema. -/
structure Box3 where
  lo : Vec3
  hi : Vec3
deriving DecidableEq, Repr

namespace Box3

/-- Smallest box containing both arguments. -/
def join (b₁ b₂ : Box3) : Box3 := ⟨b₁.lo.cmin b₂.lo, b₁.hi.cmax b₂.hi⟩

/-- Membership of a point. -/
def inBox (b : Box3) (v : Vec3) : Prop := b.lo.le v ∧ v.le b.hi

/-- The first box contains the second. -/
def contains (b₁ b₂ : Box3) : Prop := b₁.lo.le b₂.lo ∧ b₂.hi.le b₁.hi

/-- Grow a box to cover one more point. -/
def expand (b : Box3) (p : Vec3) : Box3 := ⟨b.lo.cmin p, b.hi.cmax p⟩

end Box3

/-- Extrema box of a point list (`none` for the empty list). -/
def boxOfPoints : List Vec3 → Option Box3
  | [] => none
  | p :: ps => some (ps.foldl Box3.expand ⟨p, p⟩)

theorem Vec3.le_rfl (v : Vec3) : v.le v := ⟨le_refl _, le_refl _, le_refl _⟩

theorem Vec3.le_trans {u v w : Vec3} (h₁ : u.le v) (h₂ : v.le w) : u.le w :=
  ⟨h₁.1.trans h₂.1, h₁.2.1.trans h₂.2.1, h₁.2.2.trans h₂.2.2⟩

theorem Vec3.cmin_le_left (u v : Vec3) : (u.cmin v).le u :=
  ⟨min_le_left _ _, min_le_left _ _, min_le_left _ _⟩

theorem Vec3.cmin_le_right (u v : Vec3) : (u.cmin v).le v :=
  ⟨min_le_right _ _, min_le_right _ _, min_le_right _ _⟩

theorem Vec3.le_cmax_left (u v : Vec3) : u.le (u.cmax v) :=
  ⟨le_max_left _ _, le_max_left _ _, le_max_left _ _⟩

theorem Vec3.le_cmax_right (u v : Vec3) : v.le (u.cmax v) :=
  ⟨le_max_right _ _, le_max_right _ _, le_max_right _ _⟩

theorem Vec3.le_cmin {u v w : Vec3} (h₁ : w.le u) (h₂ : w.le v) : w.le (u.cmin v) :=
  ⟨le_min h₁.1 h₂.1, le_min h₁.2.1 h₂.2.1, le_min h₁.2.2 h₂.2.2⟩

theorem Vec3.cmax_le {u v w : Vec3} (h₁ : u.le w) (h₂ : v.le w) : (u.cmax v).le w :=
  ⟨max_le h₁.1 h₂.1, max_le h₁.2.1 h₂.2.1, max_le h₁.2.2 h₂.2.2⟩

theorem Box3.contains_rfl (b : Box3) : b.contains b := ⟨Vec3.le_rfl _, Vec3.le_rfl _⟩

theorem Box3.contains_trans {a b c : Box3} (h₁ : a.contains b) (h₂ : b.contains c) :
    a.contains c :=
  ⟨Vec3.le_trans h₁.1 h₂.1, Vec3.le_trans h₂.2 h₁.2⟩

theorem Box3.inBox_of_contains {a b : Box3} {v : Vec3} (h : a.contains b)
    (hv : b.inBox v) : a.inBox v :=
  ⟨Vec3.le_trans h.1 hv.1, Vec3.le_trans hv.2 h.2⟩

theorem Box3.join_contains_left {a b c : Box3} (h : a.contains c) :
    (a.join b).contains c :=
  ⟨Vec3.le_trans (Vec3.cmin_le_left _ _) h.1, Vec3.le_trans h.2 (Vec3.le_cmax_left _ _)⟩

theorem Box3.join_contains_right {a b c : Box3} (h : b.contains c) :
    (a.join b).contains c :=
  ⟨Vec3.le_trans (Vec3.cmin_le_right _ _) h.1, Vec3.le_trans h.2 (Vec3.le_cmax_right _ _)⟩

theorem Box3.contains_join {a b c d : Box3} (h₁ : a.contains c) (h₂ : b.contains d) :
    (a.join b).contains (c.join d) :=
  ⟨Vec3.le_cmin (Box3.join_contains_left h₁).1 (Box3.join_contains_right h₂).1,
    Vec3.cmax_le (Box3.join_contains_left h₁).2 (Box3.join_contains_right h₂).2⟩

theorem Box3.expand_contains_self {b : Box3} (p : Vec3) : (b.expand p).contains b :=
  ⟨Vec3.cmin_le_left _ _, Vec3.le_cmax_left _ _⟩

theorem Box3.inBox_expand {b : Box3} (p : Vec3) : (b.expand p).inBox p :=
  ⟨Vec3.cmin_le_right _ _, Vec3.le_cmax_right _ _⟩

theorem Box3.contains_expand {B b : Box3} {p : Vec3} (hb : B.contains b)
    (hp : B.inBox p) : B.contains (b.expand p) :=
  ⟨Vec3.le_cmin hb.1 hp.1, Vec3.cmax_le hb.2 hp.2⟩

theorem foldl_expand_contains (l : List Vec3) (b : Box3) :
    (l.foldl Box3.expand b).contains b := by
  induction l generalizing b with
  | nil => exact Box3.contains_rfl b
  | cons p l ih =>
    exact Box3.contains_trans (ih (b.expand p)) (Box3.expand_contains_self p)

theorem foldl_expand_inBox {l : List Vec3} {q : Vec3} (hq : q ∈ l) (b : Box3) :
    (l.foldl Box3.expand b).inBox q := by
  induction l generalizing b with
  | nil => cases hq
  | cons p l ih =>
    rcases List.mem_cons.1 hq with rfl | hq'
    · exact Box3.inBox_of_contains (foldl_expand_contains l (b.expand q))
        (Box3.inBox_expand q)
    · exact ih hq' (b.expand p)

theorem boxOfPoints_inBox {l : List Vec3} {p : Vec3} {b : Box3} (hp : p ∈ l)
    (hb : boxOfPoints l = some b) : b.inBox p := by
  cases l with
  | nil => cases hp
  | cons q l =>
    rw [boxOfPoints] at hb
    cases hb
    rcases List.mem_cons.1 hp with rfl | hp'
    · exact Box3.inBox_of_contains (foldl_expand_contains l ⟨p, p⟩)
        ⟨Vec3.le_rfl p, Vec3.le_rfl p⟩
    · exact foldl_expand_inBox hp' _

theorem contains_foldl_expand {B b : Box3} {l : List Vec3} (hb : B.contains b)
    (hl : ∀ p ∈ l, B.inBox p) : B.contains (l.foldl Box3.expand b) := by
  induction l generalizing b with
  | nil => exact hb
  | cons p l ih =>
    exact ih (Box3.contains_expand hb (hl p (List.mem_cons_self p l)))
      fun q hq => hl q (List.mem_cons_of_mem p hq)

theorem contains_boxOfPoints {B : Box3} {l : List Vec3} {b : Box3}
    (hl : ∀ p ∈ l, B.inBox p) (hb : boxOfPoints l = some b) : B.contains b := by
  cases l with
  | nil => cases hb
  | cons q l =>
    rw [boxOfPoints] at hb
    cases hb
    exact contains_foldl_expand
      (by
        have hq := hl q (List.mem_cons_self q l)
        exact ⟨hq.1, hq.2⟩)
      (fun p hp => hl p (List.mem_cons_of_mem q hp))

/-- Interval image of multiplication by a fixed coefficient. -/
def imul (a lo hi : ℚ) : ℚ × ℚ := (min (a * lo) (a * hi), max (a * lo) (a * hi))

/-- Lower end of the interval image of a box under one matrix row. -/
def rowLo (r : Vec3) (b : Box3) : ℚ :=
  (imul r.x b.lo.x b.hi.x).1 + (imul r.y b.lo.y b.hi.y).1 + (imul r.z b.lo.z b.hi.z).1

/-- Upper end of the interval image of a box under one matrix row. -/
def rowHi (r : Vec3) (b : Box3) : ℚ :=
  (imul r.x b.lo.x b.hi.x).2 + (imul r.y b.lo.y b.hi.y).2 + (imul r.z b.lo.z b.hi.z).2

/-- Modelled from the spec: the loose axis-aligned image of a raw-extrema
box under the current transform, by interval arithmetic — `getBB` is O(1)
from cached raw extrema and "may overestimate volume" (§4.1). -/
def looseTransformBox (T : RigidTransform) (b : Box3) : Box3 :=
  ⟨⟨rowLo T.R.row1 b + T.t.x, rowLo T.R.row2 b + T.t.y, rowLo T.R.row3 b + T.t.z⟩,
    ⟨rowHi T.R.row1 b + T.t.x, rowHi T.R.row2 b + T.t.y, rowHi T.R.row3 b + T.t.z⟩⟩

theorem imul_bounds {a lo hi x : ℚ} (h1 : lo ≤ x) (h2 : x ≤ hi) :
    (imul a lo hi).1 ≤ a * x ∧ a * x ≤ (imul a lo hi).2 := by
  rcases le_total 0 a with ha | ha
  · exact ⟨le_trans (min_le_left _ _) (mul_le_mul_of_nonneg_left h1 ha),
      le_trans (mul_le_mul_of_nonneg_left h2 ha) (le_max_right _ _)⟩
  · exact ⟨le_trans (min_le_right _ _) (mul_le_mul_of_nonpos_left h2 ha),
      le_trans (mul_le_mul_of_nonpos_left h1 ha) (le_max_left _ _)⟩

theorem rowLo_le_dot {b : Box3} {v : Vec3} (r : Vec3) (hv : b.inBox v) :
    rowLo r b ≤ r.dot v := by
  obtain ⟨⟨hx1, hy1, hz1⟩, hx2, hy2, hz2⟩ := hv
  rw [rowLo, Vec3.dot]
  exact add_le_add (add_le_add (imul_bounds hx1 hx2).1 (imul_bounds hy1 hy2).1)
    (imul_bounds hz1 hz2).1

theorem dot_le_rowHi {b : Box3} {v : Vec3} (r : Vec3) (hv : b.inBox v) :
    r.dot v ≤ rowHi r b := by
  obtain ⟨⟨hx1, hy1, hz1⟩, hx2, hy2, hz2⟩ := hv
  rw [rowHi, Vec3.dot]
  exact add_le_add (add_le_add (imul_bounds hx1 hx2).2 (imul_bounds hy1 hy2).2)
    (imul_bounds hz1 hz2).2

/-- Every point of a box lands, after the transform, inside the loose
interval image of the box. -/
theorem apply_mem_looseTransformBox {T : RigidTransform} {b : Box3} {v : Vec3}
    (hv : b.inBox v) : (looseTransformBox T b).inBox (T.apply v) := by
  refine ⟨⟨?_, ?_, ?_⟩, ?_, ?_, ?_⟩ <;>
    simp only [looseTransformBox, RigidTransform.apply, Mat3.mulVec, Vec3.add]
  · exact add_le_add_right (rowLo_le_dot T.R.row1 hv) _
  · exact add_le_add_right (rowLo_le_dot T.R.row2 hv) _
  · exact add_le_add_right (rowLo_le_dot T.R.row3 hv) _
  · exact add_le_add_right (dot_le_rowHi T.R.row1 hv) _
  · exact add_le_add_right (dot_le_rowHi T.R.row2 hv) _
  · exact add_le_add_right (dot_le_rowHi T.R.row3 hv) _

/-- The effective (nonnegative) sphere radius. -/
def sphereRad (r : ℚ) : ℚ := max r 0

/-- The eight corners of a box. -/
def boxCorners (lo hi : Vec3) : List Vec3 :=
  [⟨lo.x, lo.y, lo.z⟩, ⟨lo.x, lo.y, hi.z⟩, ⟨lo.x, hi.y, lo.z⟩, ⟨lo.x, hi.y, hi.z⟩,
    ⟨hi.x, lo.y, lo.z⟩, ⟨hi.x, lo.y, hi.z⟩, ⟨hi.x, hi.y, lo.z⟩, ⟨hi.x, hi.y, hi.z⟩]

/-- Modelled from the spec: the raw-data extrema box of a non-Group shape
in its local frame (§4.1: `getBB` is "computed from AccelerationIndex root
or raw extrema"); `none` for empty shapes.  Degenerate AABB corners are
normalized and negative sphere radii clamped so the extrema are genuine. -/
def Geometry3D.leafRawBB : Geometry3D → Option Box3
  | .uninit _ _ => none
  | .prim (.point p) _ _ => some ⟨p, p⟩
  | .prim (.sphere c r) _ _ =>
    some ⟨⟨c.x - sphereRad r, c.y - sphereRad r, c.z - sphereRad r⟩,
      ⟨c.x + sphereRad r, c.y + sphereRad r, c.z + sphereRad r⟩⟩
  | .prim (.segment a b) _ _ => some ⟨a.cmin b, a.cmax b⟩
  | .prim (.aabb lo hi) _ _ => some ⟨lo.cmin hi, lo.cmax hi⟩
  | .triMesh m _ _ => boxOfPoints (chunk3 m.vertices)
  | .ptCloud pc _ _ => boxOfPoints (chunk3 pc.vertices)
  | .group _ _ _ => none

/-- Loose world box of one dispatch leaf: the interval image of its raw
extrema box under its current transform. -/
def Geometry3D.leafLooseBB (g : Geometry3D) : Option Box3 :=
  g.leafRawBB.map (looseTransformBox g.trans)

/-- Modelled from the spec: the exact extrema box of one transformed leaf
(`getBBTight` "recomputes an exact axis-aligned bound by scanning
transformed geometry", §4.1).  Under a rigid transform the ball's exact box
is its transformed center plus/minus its radius; for the box primitive the
extrema of the eight transformed corners are scanned. -/
def Geometry3D.leafTightBB : Geometry3D → Option Box3
  | .uninit _ _ => none
  | .prim (.point p) T _ => some ⟨T.apply p, T.apply p⟩
  | .prim (.sphere c r) T _ =>
    some ⟨⟨(T.apply c).x - sphereRad r, (T.apply c).y - sphereRad r,
        (T.apply c).z - sphereRad r⟩,
      ⟨(T.apply c).x + sphereRad r, (T.apply c).y + sphereRad r,
        (T.apply c).z + sphereRad r⟩⟩
  | .prim (.segment a b) T _ => some ⟨(T.apply a).cmin (T.apply b), (T.apply a).cmax (T.apply b)⟩
  | .prim (.aabb lo hi) T _ => boxOfPoints ((boxCorners (lo.cmin hi) (lo.cmax hi)).map T.apply)
  | .triMesh m T _ => boxOfPoints ((chunk3 m.vertices).map T.apply)
  | .ptCloud pc T _ => boxOfPoints ((chunk3 pc.vertices).map T.apply)
  | .group _ _ _ => none

/-- Union of two optional boxes. -/
def joinO : Option Box3 → Option Box3 → Option Box3
  | none, b => b
  | some a, none => some a
  | some a, some b => some (a.join b)

/-- Modelled from the spec: `getBB` — the loose world axis-aligned box,
the union over the dispatch leaves of each leaf's interval-transformed raw
extrema box (§4.1). -/
def Geometry3D.getBB (g : Geometry3D) : Option Box3 :=
  (g.leaves.map Geometry3D.leafLooseBB).foldr joinO none

/-- Modelled from the spec: `getBBTight` — the exact world axis-aligned
box, the union over the dispatch leaves of each leaf's transformed-data
extrema box (§4.1). -/
def Geometry3D.getBBTight (g : Geometry3D) : Option Box3 :=
  (g.leaves.map Geometry3D.leafTightBB).foldr joinO none

/-- The first optional box covers the region of the second. -/
def obContains (l t : Option Box3) : Prop :=
  ∀ tb, t = some tb → ∃ lb, l = some lb ∧ lb.contains tb

/-- Every rotation-like matrix in the handle's dispatch leaves has
unit-norm rows (the spec's rigid-transform assumption, §3). -/
def Geometry3D.rotOK (g : Geometry3D) : Prop :=
  ∀ h ∈ Geometry3D.leaves g, h.trans.R.rowsUnit

theorem joinO_obContains {l₁ l₂ t₁ t₂ : Option Box3} (h₁ : obContains l₁ t₁)
    (h₂ : obContains l₂ t₂) : obContains (joinO l₁ l₂) (joinO t₁ t₂) := by
  intro tb htb
  cases t₁ with
  | none =>
    cases t₂ with
    | none => simp [joinO] at htb
    | some b₂ =>
      rcases h₂ b₂ rfl with ⟨lb₂, hlb₂, hc₂⟩
      simp only [joinO, Option.some.injEq] at htb
      subst htb
      cases l₁ with
      | none => exact ⟨lb₂, by rw [hlb₂]; rfl, hc₂⟩
      | some a₁ => exact ⟨a₁.join lb₂, by rw [hlb₂]; rfl, Box3.join_contains_right hc₂⟩
  | some b₁ =>
    rcases h₁ b₁ rfl with ⟨lb₁, hlb₁, hc₁⟩
    cases t₂ with
    | none =>
      simp only [joinO, Option.some.injEq] at htb
      subst htb
      cases l₂ with
      | none => exact ⟨lb₁, by rw [hlb₁]; rfl, hc₁⟩
      | some a₂ => exact ⟨lb₁.join a₂, by rw [hlb₁]; rfl, Box3.join_contains_left hc₁⟩
    | some b₂ =>
      rcases h₂ b₂ rfl with ⟨lb₂, hlb₂, hc₂⟩
      simp only [joinO, Option.some.injEq] at htb
      subst htb
      exact ⟨lb₁.join lb₂, by rw [hlb₁, hlb₂]; rfl, Box3.contains_join hc₁ hc₂⟩

theorem foldr_joinO_obContains {ls ts : List (Option Box3)}
    (h : List.Forall₂ obContains ls ts) :
    obContains (ls.foldr joinO none) (ts.foldr joinO none) := by
  induction h with
  | nil => intro tb htb; simp at htb
  | cons hpq _ ih => exact joinO_obContains hpq ih

/-- Loose boxes of transformed point lists cover the exact boxes. -/
theorem pointlist_obContains (T : RigidTransform) (pts : List Vec3) :
    obContains ((boxOfPoints pts).map (looseTransformBox T))
      (boxOfPoints (pts.map T.apply)) := by
  intro tb htb
  cases pts with
  | nil => simp [boxOfPoints] at htb
  | cons p ps =>
    refine ⟨looseTransformBox T (ps.foldl Box3.expand ⟨p, p⟩), rfl, ?_⟩
    refine contains_boxOfPoints ?_ htb
    intro q hq
    rcases List.mem_map.1 hq with ⟨v, hv, rfl⟩
    exact apply_mem_looseTransformBox (boxOfPoints_inBox hv rfl)

theorem min_mul_off (a x s : ℚ) (hs : 0 ≤ s) :
    min (a * (x - s)) (a * (x + s)) = a * x - |a| * s := by
  rcases le_total 0 a with ha | ha
  · rw [abs_of_nonneg ha, min_eq_left (by nlinarith)]
    ring
  · rw [abs_of_nonpos ha, min_eq_right (by nlinarith)]
    ring

theorem max_mul_off (a x s : ℚ) (hs : 0 ≤ s) :
    max (a * (x - s)) (a * (x + s)) = a * x + |a| * s := by
  rcases le_total 0 a with ha | ha
  · rw [abs_of_nonneg ha, max_eq_right (by nlinarith)]
    ring
  · rw [abs_of_nonpos ha, max_eq_left (by nlinarith)]
    ring

theorem one_le_absRowSum {r : Vec3} (h : r.dot r = 1) :
    1 ≤ |r.x| + |r.y| + |r.z| := by
  rw [Vec3.dot] at h
  nlinarith [abs_nonneg r.x, abs_nonneg r.y, abs_nonneg r.z,
    abs_mul_abs_self r.x, abs_mul_abs_self r.y, abs_mul_abs_self r.z,
    mul_nonneg (abs_nonneg r.x) (abs_nonneg r.y),
    mul_nonneg (abs_nonneg r.x) (abs_nonneg r.z),
    mul_nonneg (abs_nonneg r.y) (abs_nonneg r.z)]

theorem rowLo_sphere (a c : Vec3) (s : ℚ) (hs : 0 ≤ s) (ha : a.dot a = 1) :
    rowLo a ⟨⟨c.x - s, c.y - s, c.z - s⟩, ⟨c.x + s, c.y + s, c.z + s⟩⟩ ≤ a.dot c - s := by
  rw [rowLo]
  simp only [imul]
  rw [min_mul_off a.x c.x s hs, min_mul_off a.y c.y s hs, min_mul_off a.z c.z s hs, Vec3.dot]
  nlinarith [mul_le_mul_of_nonneg_right (one_le_absRowSum ha) hs]

theorem rowHi_sphere (a c : Vec3) (s : ℚ) (hs : 0 ≤ s) (ha : a.dot a = 1) :
    a.dot c + s ≤ rowHi a ⟨⟨c.x - s, c.y - s, c.z - s⟩, ⟨c.x + s, c.y + s, c.z + s⟩⟩ := by
  rw [rowHi]
  simp only [imul]
  rw [max_mul_off a.x c.x s hs, max_mul_off a.y c.y s hs, max_mul_off a.z c.z s hs, Vec3.dot]
  nlinarith [mul_le_mul_of_nonneg_right (one_le_absRowSum ha) hs]

theorem corner_inBox (lo hi : Vec3) :
    ∀ c ∈ boxCorners (lo.cmin hi) (lo.cmax hi),
      Box3.inBox ⟨lo.cmin hi, lo.cmax hi⟩ c := by
  intro c hc
  simp only [boxCorners, List.mem_cons, List.not_mem_nil, or_false] at hc
  rcases hc with rfl | rfl | rfl | rfl | rfl | rfl | rfl | rfl <;>
    simp only [Box3.inBox, Vec3.le, Vec3.cmin, Vec3.cmax] <;>
    refine ⟨⟨?_, ?_, ?_⟩, ?_, ?_, ?_⟩ <;>
    first
      | exact le_refl _
      | exact min_le_max

/-- One dispatch leaf's loose box covers its tight box (given the
rigid-rotation row normalization for the sphere case). -/
theorem leafBB_obContains (g : Geometry3D) (hrow : g.trans.R.rowsUnit) :
    obContains g.leafLooseBB g.leafTightBB := by
  cases g with
  | uninit T m => intro tb htb; simp [Geometry3D.leafTightBB] at htb
  | group cs T m => intro tb htb; simp [Geometry3D.leafTightBB] at htb
  | triMesh mm T m => exact pointlist_obContains T (chunk3 mm.vertices)
  | ptCloud pc T m => exact pointlist_obContains T (chunk3 pc.vertices)
  | prim pr T m =>
    cases pr with
    | point p =>
      intro tb htb
      simp only [Geometry3D.leafTightBB, Option.some.injEq] at htb
      subst htb
      refine ⟨looseTransformBox T ⟨p, p⟩, rfl, ?_⟩
      have hmem := apply_mem_looseTransformBox (T := T)
        (b := ⟨p, p⟩) (v := p) ⟨Vec3.le_rfl p, Vec3.le_rfl p⟩
      exact ⟨hmem.1, hmem.2⟩
    | segment a b =>
      intro tb htb
      simp only [Geometry3D.leafTightBB, Option.some.injEq] at htb
      subst htb
      refine ⟨looseTransformBox T ⟨a.cmin b, a.cmax b⟩, rfl, ?_⟩
      have hma := apply_mem_looseTransformBox (T := T) (b := ⟨a.cmin b, a.cmax b⟩)
        (v := a) ⟨Vec3.cmin_le_left a b, Vec3.le_cmax_left a b⟩
      have hmb := apply_mem_looseTransformBox (T := T) (b := ⟨a.cmin b, a.cmax b⟩)
        (v := b) ⟨Vec3.cmin_le_right a b, Vec3.le_cmax_right a b⟩
      exact ⟨Vec3.le_cmin hma.1 hmb.1, Vec3.cmax_le hma.2 hmb.2⟩
    | aabb lo hi =>
      intro tb htb
      rw [Geometry3D.leafTightBB] at htb
      refine ⟨looseTransformBox T ⟨lo.cmin hi, lo.cmax hi⟩, rfl, ?_⟩
      refine contains_boxOfPoints ?_ htb
      intro q hq
      rcases List.mem_map.1 hq with ⟨v, hv, rfl⟩
      exact apply_mem_looseTransformBox (corner_inBox lo hi v hv)
    | sphere ctr r =>
      intro tb htb
      simp only [Geometry3D.leafTightBB, Option.some.injEq] at htb
      subst htb
      refine ⟨looseTransformBox T
        ⟨⟨ctr.x - sphereRad r, ctr.y - sphereRad r, ctr.z - sphereRad r⟩,
          ⟨ctr.x + sphereRad r, ctr.y + sphereRad r, ctr.z + sphereRad r⟩⟩, rfl, ?_⟩
      have hs : 0 ≤ sphereRad r := le_max_right r 0
      obtain ⟨h1, h2, h3⟩ := hrow
      have hlo1 := rowLo_sphere T.R.row1 ctr (sphereRad r) hs h1
      have hlo2 := rowLo_sphere T.R.row2 ctr (sphereRad r) hs h2
      have hlo3 := rowLo_sphere T.R.row3 ctr (sphereRad r) hs h3
      have hhi1 := rowHi_sphere T.R.row1 ctr (sphereRad r) hs h1
      have hhi2 := rowHi_sphere T.R.row2 ctr (sphereRad r) hs h2
      have hhi3 := rowHi_sphere T.R.row3 ctr (sphereRad r) hs h3
      refine ⟨⟨?_, ?_, ?_⟩, ?_, ?_, ?_⟩ <;>
        simp only [looseTransformBox, RigidTransform.apply, Mat3.mulVec, Vec3.add] <;>
        linarith

/-- Claim C8: for every handle whose transforms are rotation-like
(unit-norm rows), the axis-aligned box returned by `getBB` contains the
region returned by `getBBTight`: whenever the exact tight box exists, the
loose box exists and contains it. -/
theorem claim_C8_getBB_contains_tight (g : Geometry3D) (hrot : g.rotOK) :
    ∀ tb, g.getBBTight = some tb → ∃ lb, g.getBB = some lb ∧ lb.contains tb := by
  have hforall : ∀ L : List Geometry3D, (∀ h ∈ L, h.trans.R.rowsUnit) →
      List.Forall₂ obContains (L.map Geometry3D.leafLooseBB)
        (L.map Geometry3D.leafTightBB) := by
    intro L
    induction L with
    | nil => intro _; exact List.Forall₂.nil
    | cons h L ih =>
      intro hL
      exact List.Forall₂.cons (leafBB_obContains h (hL h (List.mem_cons_self h L)))
        (ih fun h' hh' => hL h' (List.mem_cons_of_mem h hh'))
  exact foldr_joinO_obContains (hforall (Geometry3D.leaves g) hrot)

/-- Witness for C8 at a concrete sphere handle under the identity
transform. -/
theorem claim_C8_getBB_contains_tight_witness :
    ∃ lb, Geometry3D.getBB (.prim (.sphere ⟨0, 0, 0⟩ 1) RigidTransform.ident 0) = some lb ∧
      lb.contains ⟨⟨-1, -1, -1⟩, ⟨1, 1, 1⟩⟩ :=
  claim_C8_getBB_contains_tight (.prim (.sphere ⟨0, 0, 0⟩ 1) RigidTransform.ident 0)
    (by
      intro h hh
      simp only [Geometry3D.leaves_prim, List.mem_singleton] at hh
      subst hh
      show Mat3.rowsUnit Mat3.ident
      rw [Mat3.rowsUnit]
      refine ⟨?_, ?_, ?_⟩ <;> norm_num [Vec3.dot, Mat3.ident])
    ⟨⟨-1, -1, -1⟩, ⟨1, 1, 1⟩⟩
    (by
      rw [Geometry3D.getBBTight]
      simp only [Geometry3D.leaves_prim, List.map_cons, List.map_nil, List.foldr_cons,
        List.foldr_nil]
      rw [Geometry3D.leafTightBB]
      simp only [joinO, Option.some.injEq]
      norm_num [RigidTransform.apply, RigidTransform.ident, Mat3.mulVec, Mat3.ident,
        Vec3.dot, Vec3.add, sphereRad])
